import Mathlib

/-!
# Verification of the Minesweeper AI knowledge base (src/week1/minesweeper/minesweeper.py)

Shallow embedding of the `Sentence` and `MinesweeperAI` classes and of the
relevant part of the `Minesweeper` board class (`nearby_mines`).  Cells are
pairs of integers (Python ints), cell sets are `Finset`, sentence counts are
`ℤ` (Python ints may go negative), and the knowledge base is a `List` of
sentences, mirroring `self.knowledge`.  Python's in-place mutation of the
sentences of the list is modelled by mapping the mutation over the list;
iteration over a Python `set` is modelled by iterating over a canonical
sorted enumeration of the `Finset` (all operations folded over such an
enumeration below are order-insensitive).
-/

/-- A board cell `(i, j)`, a pair of Python integers. -/
abbrev Cell : Type := ℤ × ℤ

/-- Canonical linear order on cells used to enumerate a Python `set` of cells. -/
def cellLe (a b : Cell) : Prop :=
  a.1 < b.1 ∨ (a.1 = b.1 ∧ a.2 ≤ b.2)

instance : DecidableRel cellLe := fun a b =>
  inferInstanceAs (Decidable (a.1 < b.1 ∨ (a.1 = b.1 ∧ a.2 ≤ b.2)))

instance : IsTrans Cell cellLe where
  trans a b c hab hbc := by
    rcases hab with h | ⟨h1, h2⟩ <;> rcases hbc with h' | ⟨h1', h2'⟩ <;>
      unfold cellLe <;> first | (left; omega) | (right; omega)

instance : IsAntisymm Cell cellLe where
  antisymm a b hab hba := by
    rcases hab with h | ⟨h1, h2⟩ <;> rcases hba with h' | ⟨h1', h2'⟩ <;>
      (ext : 1 <;> omega)

instance : IsTotal Cell cellLe where
  total a b := by
    unfold cellLe; omega

/-- Enumeration of a cell set, standing in for Python's `list(s)` on a `set`:
the elements in increasing `cellLe` order.  Insertion sort is used because it
is structurally recursive, hence evaluable inside the kernel. -/
def listCells (s : Finset Cell) : List Cell :=
  Quot.liftOn s.val (fun l => List.insertionSort cellLe l) fun l₁ l₂ h =>
    List.eq_of_perm_of_sorted
      ((List.perm_insertionSort cellLe l₁).trans
        (h.trans (List.perm_insertionSort cellLe l₂).symm))
      (List.sorted_insertionSort cellLe l₁) (List.sorted_insertionSort cellLe l₂)

theorem mem_listCells {s : Finset Cell} {c : Cell} : c ∈ listCells s ↔ c ∈ s := by
  rcases s with ⟨m, hm⟩
  induction m using Quot.inductionOn with
  | h l =>
    simp [listCells, Finset.mem_def,
      (List.perm_insertionSort cellLe l).mem_iff]

/-- The `Sentence` class: a set of board cells and a count of how many of
them are mines.  Python's `__eq__` compares `cells` and `count` by value,
which is definitional equality here. -/
structure Sentence where
  cells : Finset Cell
  count : ℤ
  deriving DecidableEq

namespace Sentence

/-- `Sentence.known_mines`: returns `self.cells` when `len(self.cells) == self.count`,
and `None` (here `none`) otherwise. -/
def known_mines (s : Sentence) : Option (Finset Cell) :=
  if (s.cells.card : ℤ) = s.count then some s.cells else none

/-- `Sentence.known_safes`: returns `self.cells` when `self.count == 0`,
and `None` otherwise. -/
def known_safes (s : Sentence) : Option (Finset Cell) :=
  if s.count = 0 then some s.cells else none

/-- `Sentence.mark_mine`: if the cell is in the sentence, remove it and
decrement the count by one. -/
def mark_mine (s : Sentence) (c : Cell) : Sentence :=
  if c ∈ s.cells then ⟨s.cells.erase c, s.count - 1⟩ else s

/-- `Sentence.mark_safe`: if the cell is in the sentence, remove it, leaving
the count unchanged. -/
def mark_safe (s : Sentence) (c : Cell) : Sentence :=
  if c ∈ s.cells then ⟨s.cells.erase c, s.count⟩ else s

end Sentence

/-- The `MinesweeperAI` class state: board dimensions, the moves made, the
cells known to be mines or safe, and the list of sentences known to be true. -/
structure MinesweeperAI where
  height : ℤ
  width : ℤ
  moves_made : Finset Cell
  mines : Finset Cell
  safes : Finset Cell
  knowledge : List Sentence
  deriving DecidableEq

namespace MinesweeperAI

/-- `MinesweeperAI.__init__`: empty fact sets and an empty knowledge base. -/
def init (height width : ℤ) : MinesweeperAI :=
  { height := height, width := width, moves_made := ∅, mines := ∅, safes := ∅,
    knowledge := [] }

/-- `MinesweeperAI.mark_mine`: add the cell to `mines` and call
`Sentence.mark_mine` on every sentence of the knowledge base. -/
def mark_mine (st : MinesweeperAI) (c : Cell) : MinesweeperAI :=
  { st with mines := insert c st.mines,
            knowledge := st.knowledge.map (fun s => s.mark_mine c) }

/-- `MinesweeperAI.mark_safe`: add the cell to `safes` and call
`Sentence.mark_safe` on every sentence of the knowledge base. -/
def mark_safe (st : MinesweeperAI) (c : Cell) : MinesweeperAI :=
  { st with safes := insert c st.safes,
            knowledge := st.knowledge.map (fun s => s.mark_safe c) }

end MinesweeperAI

/-- A mine assignment: the ground truth `self.board[i][j]` of the board
collaborator, as a function from cells to `Bool`. -/
abbrev MineAssignment : Type := Cell → Bool

/-- A sentence is sound for a mine assignment when exactly `count` of its
cells are mines under that assignment. -/
def soundSentence (M : MineAssignment) (s : Sentence) : Prop :=
  ((s.cells.filter (fun c => M c)).card : ℤ) = s.count

/-- An agent state is sound for a mine assignment when every recorded mine is
a mine, every recorded safe or moved cell is not a mine, and every sentence of
the knowledge base is sound. -/
def SoundState (M : MineAssignment) (st : MinesweeperAI) : Prop :=
  (∀ c ∈ st.mines, M c = true) ∧
  (∀ c ∈ st.safes, M c = false) ∧
  (∀ c ∈ st.moves_made, M c = false) ∧
  (∀ s ∈ st.knowledge, soundSentence M s)

/-- The 3×3 block of positions scanned by the double loop
`for i in range(cell[0]-1, cell[0]+2): for j in range(cell[1]-1, cell[1]+2)`. -/
def neighborsBlock (cell : Cell) : List Cell :=
  [(cell.1 - 1, cell.2 - 1), (cell.1 - 1, cell.2), (cell.1 - 1, cell.2 + 1),
   (cell.1, cell.2 - 1), (cell.1, cell.2), (cell.1, cell.2 + 1),
   (cell.1 + 1, cell.2 - 1), (cell.1 + 1, cell.2), (cell.1 + 1, cell.2 + 1)]

/-- The nine positions of the block are pairwise distinct, so the block as a
`Finset` counts exactly what the Python loop visits. -/
theorem neighborsBlock_nodup (cell : Cell) : (neighborsBlock cell).Nodup := by
  simp [neighborsBlock, Prod.ext_iff]
  omega

/-- The scanned block as a `Finset`. -/
def blockF (cell : Cell) : Finset Cell :=
  (neighborsBlock cell).toFinset

/-- The bounds check `i >= 0 and j >= 0 and i < self.height and j < self.width`. -/
def inBounds (H W : ℤ) (p : Cell) : Prop :=
  0 ≤ p.1 ∧ 0 ≤ p.2 ∧ p.1 < H ∧ p.2 < W

instance (H W : ℤ) : DecidablePred (inBounds H W) := fun p =>
  inferInstanceAs (Decidable (0 ≤ p.1 ∧ 0 ≤ p.2 ∧ p.1 < H ∧ p.2 < W))

/-- `Minesweeper.nearby_mines` of the board class, with the board's mine layout
given as an assignment `M : Cell → Bool` (the value of `self.board[i][j]`):
the number of in-bounds mined positions of the block other than the cell itself. -/
def nearby_mines (M : Cell → Bool) (H W : ℤ) (cell : Cell) : ℤ :=
  (((blockF cell).filter (fun p => p ≠ cell ∧ inBounds H W p ∧ M p)).card : ℤ)

namespace MinesweeperAI

/-- Lines 195–216 of `add_knowledge`: record the move, add the cell to `safes`
(directly, without `mark_safe`), collect the in-bounds block positions that are
neither moved nor known mines as the new sentence's cells, subtract one from
the count for each in-bounds block position that is a known mine, and append
the new sentence unconditionally. -/
def ingest (st : MinesweeperAI) (cell : Cell) (count : ℤ) : MinesweeperAI :=
  let moves' := insert cell st.moves_made
  let inb := (blockF cell).filter (inBounds st.height st.width)
  let neighbors := inb.filter (fun p => p ∉ moves' ∧ p ∉ st.mines)
  let count' := count - ((inb.filter (fun p => p ∈ st.mines)).card : ℤ)
  { st with moves_made := moves',
            safes := insert cell st.safes,
            knowledge := st.knowledge ++ [⟨neighbors, count'⟩] }

/-- Lines 221–224 of `add_knowledge`: if `known_safes()` of the sentence under
consideration is not `None`, mark each of its cells safe. -/
def extractSafes (st : MinesweeperAI) (s : Sentence) : MinesweeperAI :=
  match s.known_safes with
  | some cs => (listCells cs).foldl MinesweeperAI.mark_safe st
  | none => st

/-- Lines 225–228 of `add_knowledge`: re-read the (possibly just mutated)
sentence at position `idx` and, if its `known_mines()` is not `None`, mark
each of its cells a mine. -/
def extractMines (st : MinesweeperAI) (idx : ℕ) : MinesweeperAI :=
  match st.knowledge[idx]? with
  | none => st
  | some s1 =>
    match s1.known_mines with
    | some cs => (listCells cs).foldl MinesweeperAI.mark_mine st
    | none => st

/-- One iteration of the loop at lines 220–228 of `add_knowledge`, for the
sentence at position `idx` of the knowledge list: the safe-extraction phase on
the sentence as found, then the mine-extraction phase on its current value. -/
def extractStep (st : MinesweeperAI) (idx : ℕ) : MinesweeperAI :=
  match st.knowledge[idx]? with
  | none => st
  | some s => extractMines (extractSafes st s) idx

/-- The loop at lines 220–228 of `add_knowledge`: visit each position of the
knowledge list once, in order (marking never changes the list's length). -/
def extractPass (st : MinesweeperAI) : MinesweeperAI :=
  (List.range st.knowledge.length).foldl extractStep st

/-- The candidate sentences of the loop at lines 236–249 of `add_knowledge`:
for every ordered pair of sentences of the base whose second component's cell
set is a subset of the first's, the difference sentence, kept only when it is
not already in the base (by value equality). -/
def newSentences (kn : List Sentence) : List Sentence :=
  kn.flatMap (fun A =>
    kn.filterMap (fun B =>
      if B.cells ⊆ A.cells then
        let C : Sentence := ⟨A.cells \ B.cells, A.count - B.count⟩
        if C ∈ kn then none else some C
      else none))

/-- Lines 230–252 of `add_knowledge`: extend the knowledge base with the
candidate sentences derived from it. -/
def resolvePass (st : MinesweeperAI) : MinesweeperAI :=
  { st with knowledge := st.knowledge ++ newSentences st.knowledge }

/-- `MinesweeperAI.add_knowledge`: ingest the observation, run one extraction
pass, then one resolution pass. -/
def add_knowledge (st : MinesweeperAI) (cell : Cell) (count : ℤ) : MinesweeperAI :=
  resolvePass (extractPass (st.ingest cell count))

/-- `MinesweeperAI.make_safe_move`: the first safe cell, in the enumeration
order of `safes`, that is not already a move made; `none` when the scan finds
nothing. -/
def make_safe_move (st : MinesweeperAI) : Option Cell :=
  (listCells st.safes).find? (fun c => decide (c ∉ st.moves_made))

/-- The grid of all board cells `(i, j)` with `0 <= i < height`,
`0 <= j < width`, scanned by the double loop of `make_random_move`. -/
def gridCells (H W : ℤ) : Finset Cell :=
  (Finset.range H.toNat ×ˢ Finset.range W.toNat).image
    (fun q => ((q.1 : ℤ), (q.2 : ℤ)))

/-- The set `possible_moves` built by `make_random_move`: every grid cell that
is neither a move already made nor a known mine. -/
def possible_moves (st : MinesweeperAI) : Finset Cell :=
  (gridCells st.height st.width).filter
    (fun p => p ∉ st.moves_made ∧ p ∉ st.mines)

/-- `MinesweeperAI.make_random_move`: `None` when `possible_moves` is empty,
otherwise an element of `list(possible_moves)`; `random.choice` is modelled by
the parameter `pick`, an arbitrary selection function on non-empty lists. -/
def make_random_move (pick : List Cell → Cell) (st : MinesweeperAI) : Option Cell :=
  if possible_moves st = ∅ then none else some (pick (listCells (possible_moves st)))

end MinesweeperAI

/-- A game session: a fresh agent fed a list of observations `(cell, count)`,
one `add_knowledge` call per observation. -/
def playTrace (H W : ℤ) (obs : List (Cell × ℤ)) : MinesweeperAI :=
  obs.foldl (fun st p => st.add_knowledge p.1 p.2) (MinesweeperAI.init H W)

/-- An observation trace is produced by a sound board collaborator for mine
assignment `M` when every revealed cell is not a mine and every reported count
is the board's true `nearby_mines` value. -/
def soundTrace (M : MineAssignment) (H W : ℤ) (obs : List (Cell × ℤ)) : Prop :=
  ∀ p ∈ obs, M p.1 = false ∧ p.2 = nearby_mines M H W p.1

/-- Agent state of the scenario in which the knowledge base already holds the
sentences `{A,B,C}=2` and `{A,B}=2`, with `A = (3,3)`, `B = (3,2)`,
`C = (2,3)` on a 4×4 board, when a fresh observation arrives. -/
def scenarioTwoSentences : MinesweeperAI :=
  { height := 4, width := 4, moves_made := ∅, mines := ∅, safes := ∅,
    knowledge := [⟨{(3,3), (3,2), (2,3)}, 2⟩, ⟨{(3,3), (3,2)}, 2⟩] }

/-- Agent state holding one sentence that mentions the cell `(0,0)` about to
be observed, used to exhibit that `add_knowledge` does not propagate the new
safe fact into sentences already in the base. -/
def scenarioStaleSentence : MinesweeperAI :=
  { height := 4, width := 4, moves_made := ∅, mines := ∅, safes := ∅,
    knowledge := [⟨{(0,0), (3,3)}, 1⟩] }

/-- Agent state with one known safe unplayed cell on a 1×1 board, used as a
concrete input for the move-query theorem. -/
def scenarioOneSafe : MinesweeperAI :=
  { height := 1, width := 1, moves_made := ∅, mines := ∅, safes := {(0, 0)},
    knowledge := [] }

/-- Deterministic stand-in for `random.choice` used at a concrete input: the
head of the candidate list. -/
def headPick (l : List Cell) : Cell :=
  l.headD (0, 0)

/-- Agent state whose knowledge base holds the vacuous sentence, used as a
concrete input for the sentence-persistence theorem. -/
def scenarioVacuous : MinesweeperAI :=
  { height := 2, width := 2, moves_made := ∅, mines := ∅, safes := ∅,
    knowledge := [⟨∅, 0⟩] }

/-! ## Helper lemmas about the sentence operations -/

theorem Sentence.mark_mine_cells (s : Sentence) (c : Cell) :
    (s.mark_mine c).cells = s.cells.erase c := by
  by_cases h : c ∈ s.cells <;>
    simp [Sentence.mark_mine, h, Finset.erase_eq_of_not_mem]

theorem Sentence.mark_safe_cells (s : Sentence) (c : Cell) :
    (s.mark_safe c).cells = s.cells.erase c := by
  by_cases h : c ∈ s.cells <;>
    simp [Sentence.mark_safe, h, Finset.erase_eq_of_not_mem]

theorem Sentence.mark_mine_idem (s : Sentence) (c : Cell) :
    (s.mark_mine c).mark_mine c = s.mark_mine c := by
  by_cases h : c ∈ s.cells <;>
    simp [Sentence.mark_mine, h, Finset.not_mem_erase]

theorem Sentence.mark_safe_idem (s : Sentence) (c : Cell) :
    (s.mark_safe c).mark_safe c = s.mark_safe c := by
  by_cases h : c ∈ s.cells <;>
    simp [Sentence.mark_safe, h, Finset.not_mem_erase]

/-! ## Claim C5 -/

/-- C5: `Sentence.mark_mine` removes the cell from `cells` and decrements
`count` by exactly one when the cell is a member and changes nothing
otherwise; `Sentence.mark_safe` removes the cell leaving `count` unchanged
when the cell is a member and changes nothing otherwise.  (Removing an absent
cell is a no-op, so the `cells` equations hold unconditionally; both
operations are pure functions of the sentence alone.) -/
theorem C5_sentence_mark_operations (s : Sentence) (c : Cell) :
    (s.mark_mine c).cells = s.cells.erase c ∧
    (s.mark_mine c).count = (if c ∈ s.cells then s.count - 1 else s.count) ∧
    (c ∉ s.cells → s.mark_mine c = s) ∧
    (s.mark_safe c).cells = s.cells.erase c ∧
    (s.mark_safe c).count = s.count ∧
    (c ∉ s.cells → s.mark_safe c = s) := by
  by_cases h : c ∈ s.cells <;>
    simp [Sentence.mark_mine, Sentence.mark_safe, h, Finset.erase_eq_of_not_mem]

/-- Witness for C5 at a concrete sentence and cell. -/
theorem C5_sentence_mark_operations_witness :
    ((0, 0) : Cell) ∉ (Sentence.mk {(1, 1)} 1).cells ∧
      (Sentence.mk {(1, 1)} 1).mark_mine (0, 0) = Sentence.mk {(1, 1)} 1 := by
  refine ⟨by decide, ?_⟩
  exact (C5_sentence_mark_operations ⟨{(1, 1)}, 1⟩ (0, 0)).2.2.1 (by decide)

/-! ## Claim C6 (corrected) -/

/-- C6 counterexample: for the vacuous sentence `∅ = 0` the code's
`known_mines` returns the (empty) cell set even though `count > 0` fails, so
the claimed "undetermined" outcome is not produced. -/
theorem C6_counterexample :
    (Sentence.mk ∅ 0).known_mines = some ∅ ∧ ¬ (0 : ℤ) < (Sentence.mk ∅ 0).count := by
  constructor
  · rfl
  · decide

/-- C6 amended: `known_mines` returns the cell set exactly when
`|cells| = count` — with no `count > 0` requirement, so the vacuous sentence
also gets its (empty) cell set returned — and `none` otherwise; `known_safes`
returns the cell set exactly when `count = 0` and `none` otherwise. -/
theorem C6_known_mines_safes (s : Sentence) :
    (s.known_mines = some s.cells ↔ (s.cells.card : ℤ) = s.count) ∧
    (s.known_mines = none ↔ (s.cells.card : ℤ) ≠ s.count) ∧
    (s.known_safes = some s.cells ↔ s.count = 0) ∧
    (s.known_safes = none ↔ s.count ≠ 0) := by
  unfold Sentence.known_mines Sentence.known_safes
  by_cases h1 : (s.cells.card : ℤ) = s.count <;> by_cases h2 : s.count = 0 <;>
    simp [h1, h2]

/-! ## Claim C7 -/

/-- C7: re-recording an already-known fact changes nothing: at the agent
level, `mark_mine` and `mark_safe` are idempotent, leaving `mines`, `safes`,
`moves_made` and every sentence identical after a second call. -/
theorem C7_mark_idempotent (st : MinesweeperAI) (c : Cell) :
    (st.mark_mine c).mark_mine c = st.mark_mine c ∧
    (st.mark_safe c).mark_safe c = st.mark_safe c := by
  constructor <;>
    simp [MinesweeperAI.mark_mine, MinesweeperAI.mark_safe, List.map_map,
      Function.comp_def, Sentence.mark_mine_idem, Sentence.mark_safe_idem]

/-! ## Claim C2 (corrected) -/

/-- C2 counterexample: from a fresh agent, asserting `(0,0)` as a mine and
then as safe is accepted with no failure — the code has no error path at all —
and the execution reaches a state with `(0,0)` in both `mines` and `safes`. -/
theorem C2_counterexample :
    ((0, 0) : Cell) ∈ (((MinesweeperAI.init 8 8).mark_mine (0, 0)).mark_safe (0, 0)).mines ∧
    ((0, 0) : Cell) ∈ (((MinesweeperAI.init 8 8).mark_mine (0, 0)).mark_safe (0, 0)).safes := by
  decide

/-- C2 amended: `mark_mine` and `mark_safe` are total and raise no error;
asserting a cell both as a mine and as safe, in either order, is silently
accepted and leaves the cell in both `mines` and `safes`. -/
theorem C2_both_marks_silently_accepted (st : MinesweeperAI) (c : Cell) :
    c ∈ ((st.mark_mine c).mark_safe c).mines ∧
    c ∈ ((st.mark_mine c).mark_safe c).safes ∧
    c ∈ ((st.mark_safe c).mark_mine c).mines ∧
    c ∈ ((st.mark_safe c).mark_mine c).safes := by
  simp [MinesweeperAI.mark_mine, MinesweeperAI.mark_safe]

/-! ## Preservation combinators for the inference passes -/

theorem foldl_mark_mine_pres (P : MinesweeperAI → Prop)
    (hmine : ∀ st c, P st → P (st.mark_mine c)) :
    ∀ (l : List Cell) (st : MinesweeperAI), P st → P (l.foldl MinesweeperAI.mark_mine st)
  | [], _, h => h
  | c :: l, st, h => foldl_mark_mine_pres P hmine l (st.mark_mine c) (hmine st c h)

theorem foldl_mark_safe_pres (P : MinesweeperAI → Prop)
    (hsafe : ∀ st c, P st → P (st.mark_safe c)) :
    ∀ (l : List Cell) (st : MinesweeperAI), P st → P (l.foldl MinesweeperAI.mark_safe st)
  | [], _, h => h
  | c :: l, st, h => foldl_mark_safe_pres P hsafe l (st.mark_safe c) (hsafe st c h)

theorem extractSafes_pres (P : MinesweeperAI → Prop)
    (hsafe : ∀ st c, P st → P (st.mark_safe c))
    (st : MinesweeperAI) (s : Sentence) (h : P st) :
    P (MinesweeperAI.extractSafes st s) := by
  unfold MinesweeperAI.extractSafes
  split
  · exact foldl_mark_safe_pres P hsafe _ st h
  · exact h

theorem extractMines_pres (P : MinesweeperAI → Prop)
    (hmine : ∀ st c, P st → P (st.mark_mine c))
    (st : MinesweeperAI) (idx : ℕ) (h : P st) :
    P (MinesweeperAI.extractMines st idx) := by
  unfold MinesweeperAI.extractMines
  split
  · exact h
  · split
    · exact foldl_mark_mine_pres P hmine _ st h
    · exact h

theorem extractStep_pres (P : MinesweeperAI → Prop)
    (hmine : ∀ st c, P st → P (st.mark_mine c))
    (hsafe : ∀ st c, P st → P (st.mark_safe c))
    (st : MinesweeperAI) (idx : ℕ) (h : P st) : P (MinesweeperAI.extractStep st idx) := by
  unfold MinesweeperAI.extractStep
  split
  · exact h
  · exact extractMines_pres P hmine _ idx (extractSafes_pres P hsafe st _ h)

theorem extractPass_pres (P : MinesweeperAI → Prop)
    (hmine : ∀ st c, P st → P (st.mark_mine c))
    (hsafe : ∀ st c, P st → P (st.mark_safe c))
    (st : MinesweeperAI) (h : P st) : P (MinesweeperAI.extractPass st) := by
  unfold MinesweeperAI.extractPass
  generalize (List.range st.knowledge.length) = l
  induction l generalizing st with
  | nil => exact h
  | cons i l ih => exact ih _ (extractStep_pres P hmine hsafe st i h)

/-- The fields `height`, `width` and `moves_made` are never modified after
`ingest`, so a whole `add_knowledge` call only inserts the observed cell into
`moves_made` and keeps the dimensions. -/
theorem add_knowledge_frame (st : MinesweeperAI) (cell : Cell) (count : ℤ) :
    (st.add_knowledge cell count).height = st.height ∧
    (st.add_knowledge cell count).width = st.width ∧
    (st.add_knowledge cell count).moves_made = insert cell st.moves_made := by
  have h := extractPass_pres
    (P := fun x => x.height = st.height ∧ x.width = st.width ∧
      x.moves_made = insert cell st.moves_made)
    (fun st c hp => hp) (fun st c hp => hp)
    (st.ingest cell count) ⟨rfl, rfl, rfl⟩
  exact h

/-! ## Claim C3 (corrected) -/

/-- C3 counterexample: on a 1×1 board the new sentence's cell set is empty,
yet the sentence is appended to the base anyway (the claim says it must not
be); and observing `(0,0)` while the base already holds the sentence
`{(0,0),(3,3)} = 1` leaves that sentence untouched — the newly recorded safe
cell is not propagated into sentences already in the base. -/
theorem C3_counterexample :
    ((MinesweeperAI.init 1 1).add_knowledge (0, 0) 0).knowledge = [⟨∅, 0⟩] ∧
    (⟨{(0, 0), (3, 3)}, 1⟩ : Sentence) ∈
      (scenarioStaleSentence.add_knowledge (0, 0) 0).knowledge := by
  decide

/-- C3 amended: `add_knowledge` records the cell in `moves_made` and adds it
to `safes` directly, with no propagation into the sentences already in the
base; the new sentence's cell set consists exactly of the in-bounds positions
of the scanned 3×3 block that are in neither `moves_made` (the observed cell
included) nor `mines` — positions merely known safe are not excluded — with
the count reduced by one per in-bounds block position that is a known mine;
and the sentence is appended unconditionally, even when its cell set is
empty. -/
theorem C3_ingest_characterization (st : MinesweeperAI) (cell : Cell) (count : ℤ) :
    (st.ingest cell count).moves_made = insert cell st.moves_made ∧
    (st.ingest cell count).safes = insert cell st.safes ∧
    (st.ingest cell count).mines = st.mines ∧
    (∃ ns : Sentence,
      (st.ingest cell count).knowledge = st.knowledge ++ [ns] ∧
      (∀ p : Cell, p ∈ ns.cells ↔
        p ∈ blockF cell ∧ inBounds st.height st.width p ∧
          p ∉ insert cell st.moves_made ∧ p ∉ st.mines) ∧
      ns.count = count -
        (((blockF cell).filter
          (fun p => inBounds st.height st.width p ∧ p ∈ st.mines)).card : ℤ)) ∧
    (st.add_knowledge cell count).moves_made = insert cell st.moves_made := by
  refine ⟨rfl, rfl, rfl, ⟨_, rfl, ?_, ?_⟩, (add_knowledge_frame st cell count).2.2⟩
  · intro p
    simp [Finset.mem_filter, and_assoc]
  · simp [Finset.filter_filter]

/-! ## Claim C4 (corrected) -/

/-- Characterization of the candidate sentences of the resolution pass: every
ordered pair of base sentences with the subset property contributes its
difference sentence, provided only that the difference is not value-equal to a
sentence already in the base. -/
theorem mem_newSentences (kn : List Sentence) (C : Sentence) :
    C ∈ MinesweeperAI.newSentences kn ↔
      ∃ A ∈ kn, ∃ B ∈ kn, B.cells ⊆ A.cells ∧
        C = ⟨A.cells \ B.cells, A.count - B.count⟩ ∧ C ∉ kn := by
  unfold MinesweeperAI.newSentences
  rw [List.mem_flatMap]
  constructor
  · rintro ⟨A, hA, hC⟩
    rw [List.mem_filterMap] at hC
    obtain ⟨B, hB, hf⟩ := hC
    by_cases hsub : B.cells ⊆ A.cells
    · by_cases hmem : (⟨A.cells \ B.cells, A.count - B.count⟩ : Sentence) ∈ kn
      · simp [hsub, hmem] at hf
      · simp only [hsub, if_true, hmem, if_false, Option.some.injEq] at hf
        exact ⟨A, hA, B, hB, hsub, hf.symm, hf ▸ hmem⟩
    · simp [hsub] at hf
  · rintro ⟨A, hA, B, hB, hsub, rfl, hmem⟩
    refine ⟨A, hA, List.mem_filterMap.mpr ⟨B, hB, ?_⟩⟩
    simp [hsub, hmem]

/-- C4 counterexample: after one observation on a 2×2 board the resolution
pass derives `∅ = 0` from the pair of a sentence with itself (equal cell
sets, which the claim says are skipped) and appends it; and after two
observations the base ends holding two value-equal sentences `∅ = 0`. -/
theorem C4_counterexample :
    ((MinesweeperAI.init 2 2).add_knowledge (0, 0) 1).knowledge
      = [⟨{(0, 1), (1, 0), (1, 1)}, 1⟩, ⟨∅, 0⟩] ∧
    (((MinesweeperAI.init 2 2).add_knowledge (0, 0) 0).add_knowledge (0, 1) 0).knowledge
      = [⟨∅, 0⟩, ⟨∅, 0⟩] := by
  decide

/-- C4 amended: the resolution pass derives the candidate
`(A.cells − B.cells, A.count − B.count)` for every ordered pair `(A, B)` of
base sentences with `B.cells ⊆ A.cells` — pairs where `A` and `B` are the same
sentence, have equal cell sets, or where `B.cells = ∅` included — and keeps it
exactly when it is not value-equal to a sentence of the base as it stood
before the pass; the kept candidates are not deduplicated against each other,
so after the pass the base may hold two value-equal sentences. -/
theorem C4_resolution_characterization (st : MinesweeperAI) (C : Sentence) :
    (MinesweeperAI.resolvePass st).knowledge
        = st.knowledge ++ MinesweeperAI.newSentences st.knowledge ∧
    (C ∈ MinesweeperAI.newSentences st.knowledge ↔
      ∃ A ∈ st.knowledge, ∃ B ∈ st.knowledge, B.cells ⊆ A.cells ∧
        C = ⟨A.cells \ B.cells, A.count - B.count⟩ ∧ C ∉ st.knowledge) :=
  ⟨rfl, mem_newSentences st.knowledge C⟩

/-! ## Claim C1 (corrected) -/

/-- C1 counterexample: with the knowledge base holding `{A,B,C} = 2` and
`{A,B} = 2` (`A = (3,3)`, `B = (3,2)`, `C = (2,3)`), the observation
`add_knowledge((0,0), 0)` returns with `C` still not in `safes`, although
`{C} = 0` is entailed — the claim says `C` must be in `safes` when the call
returns. -/
theorem C1_counterexample :
    ((2, 3) : Cell) ∉ (scenarioTwoSentences.add_knowledge (0, 0) 0).safes := by
  decide

/-- C1 amended: `add_knowledge` runs a single in-order extraction pass
followed by a single resolution pass, not a fixed-point loop; a fact that
becomes extractable only after an earlier-listed sentence has been simplified
(or only from sentences derived by the resolution pass) is not recorded by the
returning call, though it may be recorded by a later call.  In the scenario
`{A,B,C} = 2`, `{A,B} = 2`: the call marks `A` and `B` as mines and leaves the
simplified sentence `{C} = 0` in the base, but `C` enters `safes` only on the
next `add_knowledge` call. -/
theorem C1_single_pass :
    ((3, 3) : Cell) ∈ (scenarioTwoSentences.add_knowledge (0, 0) 0).mines ∧
    ((3, 2) : Cell) ∈ (scenarioTwoSentences.add_knowledge (0, 0) 0).mines ∧
    (⟨{(2, 3)}, 0⟩ : Sentence) ∈ (scenarioTwoSentences.add_knowledge (0, 0) 0).knowledge ∧
    ((2, 3) : Cell) ∉ (scenarioTwoSentences.add_knowledge (0, 0) 0).safes ∧
    ((2, 3) : Cell) ∈
      ((scenarioTwoSentences.add_knowledge (0, 0) 0).add_knowledge (0, 1) 0).safes := by
  decide

/-! ## Claim C9 -/

/-- The set `possible_moves` contains exactly the in-grid cells that are
neither moves already made nor known mines. -/
theorem mem_possible_moves (st : MinesweeperAI) (p : Cell) :
    p ∈ MinesweeperAI.possible_moves st ↔
      (0 ≤ p.1 ∧ p.1 < st.height ∧ 0 ≤ p.2 ∧ p.2 < st.width) ∧
      p ∉ st.moves_made ∧ p ∉ st.mines := by
  unfold MinesweeperAI.possible_moves MinesweeperAI.gridCells
  rw [Finset.mem_filter, Finset.mem_image]
  constructor
  · rintro ⟨⟨q, hq, rfl⟩, h2⟩
    rw [Finset.mem_product, Finset.mem_range, Finset.mem_range] at hq
    exact ⟨⟨by omega, by omega, by omega, by omega⟩, h2⟩
  · rintro ⟨⟨h1, h2, h3, h4⟩, h5⟩
    refine ⟨⟨(p.1.toNat, p.2.toNat), ?_, ?_⟩, h5⟩
    · rw [Finset.mem_product, Finset.mem_range, Finset.mem_range]
      constructor <;> omega
    · ext : 1 <;> simp <;> omega

/-- C9: `make_safe_move` returns a cell of `safes` not yet played whenever one
exists and the explicit no-result outcome `none` otherwise; `make_random_move`
returns a grid cell that is neither played nor a known mine whenever one
exists and `none` otherwise (for any selection function `pick` standing in for
`random.choice`); both are total, pure functions of the state. -/
theorem C9_move_queries (st : MinesweeperAI) (pick : List Cell → Cell)
    (hpick : ∀ l : List Cell, l ≠ [] → pick l ∈ l) :
    (st.make_random_move pick = none ↔ MinesweeperAI.possible_moves st = ∅) ∧
    ((∃ c, c ∈ MinesweeperAI.possible_moves st) ↔
      (∃ r, st.make_random_move pick = some r ∧ r ∈ MinesweeperAI.possible_moves st ∧
        r ∉ st.moves_made ∧ r ∉ st.mines)) ∧
    (st.make_safe_move = none ↔ ∀ c ∈ st.safes, c ∈ st.moves_made) ∧
    ((∃ c ∈ st.safes, c ∉ st.moves_made) ↔
      (∃ r, st.make_safe_move = some r ∧ r ∈ st.safes ∧ r ∉ st.moves_made)) := by
  have hnone : st.make_random_move pick = none ↔ MinesweeperAI.possible_moves st = ∅ := by
    unfold MinesweeperAI.make_random_move
    by_cases he : MinesweeperAI.possible_moves st = ∅ <;> simp [he]
  have hsnone : st.make_safe_move = none ↔ ∀ c ∈ st.safes, c ∈ st.moves_made := by
    unfold MinesweeperAI.make_safe_move
    rw [List.find?_eq_none]
    constructor
    · intro h c hc
      have := h c (mem_listCells.mpr hc)
      simpa using this
    · intro h c hc
      simpa using h c (mem_listCells.mp hc)
  refine ⟨hnone, ?_, hsnone, ?_⟩
  · constructor
    · rintro ⟨c, hc⟩
      have hne : MinesweeperAI.possible_moves st ≠ ∅ := by
        intro he
        rw [he] at hc
        exact absurd hc (Finset.not_mem_empty c)
      have hlne : listCells (MinesweeperAI.possible_moves st) ≠ [] := by
        intro he
        have := mem_listCells.mpr hc
        rw [he] at this
        exact absurd this (List.not_mem_nil c)
      have hmem : pick (listCells (MinesweeperAI.possible_moves st))
          ∈ MinesweeperAI.possible_moves st :=
        mem_listCells.mp (hpick _ hlne)
      have hval : st.make_random_move pick
          = some (pick (listCells (MinesweeperAI.possible_moves st))) := by
        unfold MinesweeperAI.make_random_move
        simp [hne]
      have hprops := (mem_possible_moves st _).mp hmem
      exact ⟨_, hval, hmem, hprops.2.1, hprops.2.2⟩
    · rintro ⟨r, hval, hmem, _, _⟩
      exact ⟨r, hmem⟩
  · constructor
    · rintro ⟨c, hc, hcm⟩
      rcases hfind : st.make_safe_move with _ | r
      · exact absurd (hsnone.mp hfind c hc) hcm
      · have hr1 : r ∈ listCells st.safes := List.mem_of_find?_eq_some hfind
        have hr2 := List.find?_some hfind
        simp only [decide_eq_true_eq] at hr2
        exact ⟨r, rfl, mem_listCells.mp hr1, hr2⟩
    · rintro ⟨r, _, hr1, hr2⟩
      exact ⟨r, hr1, hr2⟩

/-- Witness for C9 at a concrete state with one safe unplayed cell and the
head-of-list selection function. -/
theorem C9_move_queries_witness :
    scenarioOneSafe.make_random_move headPick = none ↔
      MinesweeperAI.possible_moves scenarioOneSafe = ∅ :=
  (C9_move_queries scenarioOneSafe headPick
    (fun l hl => by
      cases l with
      | nil => exact absurd rfl hl
      | cons a t => simp [headPick])).1

/-! ## Claim C10 -/

/-- Marking a mine never changes the vacuous sentence. -/
theorem Sentence.mark_mine_vacuous (c : Cell) :
    Sentence.mark_mine ⟨∅, 0⟩ c = ⟨∅, 0⟩ := by
  simp [Sentence.mark_mine]

/-- Marking safe never changes the vacuous sentence. -/
theorem Sentence.mark_safe_vacuous (c : Cell) :
    Sentence.mark_safe ⟨∅, 0⟩ c = ⟨∅, 0⟩ := by
  simp [Sentence.mark_safe]

/-- C10: no operation removes a sentence from the knowledge list — the mark
operations keep its length and `add_knowledge` only grows it (by at least the
one ingested sentence) — and a vacuous sentence `∅ = 0` sitting at position
`i` is still there, unchanged, after any of the three operations. -/
theorem C10_sentences_never_removed (st : MinesweeperAI) (c cell : Cell) (count : ℤ)
    (i : ℕ) (h : st.knowledge[i]? = some ⟨∅, 0⟩) :
    (st.mark_mine c).knowledge.length = st.knowledge.length ∧
    (st.mark_safe c).knowledge.length = st.knowledge.length ∧
    st.knowledge.length + 1 ≤ (st.add_knowledge cell count).knowledge.length ∧
    (st.mark_mine c).knowledge[i]? = some ⟨∅, 0⟩ ∧
    (st.mark_safe c).knowledge[i]? = some ⟨∅, 0⟩ ∧
    (st.add_knowledge cell count).knowledge[i]? = some ⟨∅, 0⟩ := by
  have hi : i < st.knowledge.length := by
    rw [List.getElem?_eq_some] at h
    exact h.1
  have hmine : ∀ (x : MinesweeperAI) (d : Cell),
      x.knowledge[i]? = some ⟨∅, 0⟩ ∧ x.knowledge.length = st.knowledge.length + 1 →
      (x.mark_mine d).knowledge[i]? = some ⟨∅, 0⟩ ∧
        (x.mark_mine d).knowledge.length = st.knowledge.length + 1 := by
    rintro x d ⟨hx, hlen⟩
    refine ⟨?_, by simpa [MinesweeperAI.mark_mine] using hlen⟩
    simp [MinesweeperAI.mark_mine, List.getElem?_map, hx, Sentence.mark_mine_vacuous]
  have hsafe : ∀ (x : MinesweeperAI) (d : Cell),
      x.knowledge[i]? = some ⟨∅, 0⟩ ∧ x.knowledge.length = st.knowledge.length + 1 →
      (x.mark_safe d).knowledge[i]? = some ⟨∅, 0⟩ ∧
        (x.mark_safe d).knowledge.length = st.knowledge.length + 1 := by
    rintro x d ⟨hx, hlen⟩
    refine ⟨?_, by simpa [MinesweeperAI.mark_safe] using hlen⟩
    simp [MinesweeperAI.mark_safe, List.getElem?_map, hx, Sentence.mark_safe_vacuous]
  have hingest : (st.ingest cell count).knowledge[i]? = some ⟨∅, 0⟩ ∧
      (st.ingest cell count).knowledge.length = st.knowledge.length + 1 := by
    constructor
    · show (st.knowledge ++ [_])[i]? = some ⟨∅, 0⟩
      rw [List.getElem?_append_left hi]
      exact h
    · simp [MinesweeperAI.ingest]
  obtain ⟨hx1, hx2⟩ := extractPass_pres
    (P := fun x => x.knowledge[i]? = some ⟨∅, 0⟩ ∧
      x.knowledge.length = st.knowledge.length + 1)
    hmine hsafe (st.ingest cell count) hingest
  have hresolve : (st.add_knowledge cell count).knowledge[i]? = some ⟨∅, 0⟩ ∧
      st.knowledge.length + 1 ≤ (st.add_knowledge cell count).knowledge.length := by
    constructor
    · show ((MinesweeperAI.extractPass (st.ingest cell count)).knowledge ++ _)[i]?
        = some ⟨∅, 0⟩
      rw [List.getElem?_append_left (by omega)]
      exact hx1
    · show st.knowledge.length + 1 ≤
        ((MinesweeperAI.extractPass (st.ingest cell count)).knowledge ++ _).length
      rw [List.length_append]
      omega
  refine ⟨by simp [MinesweeperAI.mark_mine], by simp [MinesweeperAI.mark_safe],
    hresolve.2, ?_, ?_, hresolve.1⟩
  · simp [MinesweeperAI.mark_mine, List.getElem?_map, h, Sentence.mark_mine_vacuous]
  · simp [MinesweeperAI.mark_safe, List.getElem?_map, h, Sentence.mark_safe_vacuous]

/-- Witness for C10 at a concrete state whose base holds the vacuous sentence. -/
theorem C10_sentences_never_removed_witness :
    scenarioVacuous.knowledge[0]? = some ⟨∅, 0⟩ ∧
    (scenarioVacuous.add_knowledge (0, 0) 0).knowledge[0]? = some ⟨∅, 0⟩ :=
  ⟨by decide,
    (C10_sentences_never_removed scenarioVacuous (1, 1) (0, 0) 0 0 (by decide)).2.2.2.2.2⟩

/-! ## Claim C8: soundness of the whole pipeline for a sound board -/

theorem soundSentence_mark_mine {M : MineAssignment} {s : Sentence} {c : Cell}
    (hc : M c = true) (h : soundSentence M s) : soundSentence M (s.mark_mine c) := by
  unfold soundSentence at h ⊢
  by_cases hmem : c ∈ s.cells
  · have hcf : c ∈ s.cells.filter (fun x => M x) := Finset.mem_filter.mpr ⟨hmem, hc⟩
    have hpos : 1 ≤ (s.cells.filter (fun x => M x)).card := Finset.card_pos.mpr ⟨c, hcf⟩
    simp only [Sentence.mark_mine, hmem, if_true]
    rw [Finset.filter_erase, Finset.card_erase_of_mem hcf, Nat.cast_sub hpos, h]
    rfl
  · simpa [Sentence.mark_mine, hmem] using h

theorem soundSentence_mark_safe {M : MineAssignment} {s : Sentence} {c : Cell}
    (hc : M c = false) (h : soundSentence M s) : soundSentence M (s.mark_safe c) := by
  unfold soundSentence at h ⊢
  by_cases hmem : c ∈ s.cells
  · have hcf : c ∉ s.cells.filter (fun x => M x) := by
      simp [Finset.mem_filter, hc]
    simp only [Sentence.mark_safe, hmem, if_true]
    rw [Finset.filter_erase, Finset.erase_eq_of_not_mem hcf, h]
  · simpa [Sentence.mark_safe, hmem] using h

theorem SoundState_mark_mine {M : MineAssignment} {st : MinesweeperAI} {c : Cell}
    (hc : M c = true) (h : SoundState M st) : SoundState M (st.mark_mine c) := by
  obtain ⟨h1, h2, h3, h4⟩ := h
  refine ⟨?_, h2, h3, ?_⟩
  · intro x hx
    rcases Finset.mem_insert.mp hx with rfl | hx
    · exact hc
    · exact h1 x hx
  · intro s' hs'
    rcases List.mem_map.mp hs' with ⟨s, hs, rfl⟩
    exact soundSentence_mark_mine hc (h4 s hs)

theorem SoundState_mark_safe {M : MineAssignment} {st : MinesweeperAI} {c : Cell}
    (hc : M c = false) (h : SoundState M st) : SoundState M (st.mark_safe c) := by
  obtain ⟨h1, h2, h3, h4⟩ := h
  refine ⟨h1, ?_, h3, ?_⟩
  · intro x hx
    rcases Finset.mem_insert.mp hx with rfl | hx
    · exact hc
    · exact h2 x hx
  · intro s' hs'
    rcases List.mem_map.mp hs' with ⟨s, hs, rfl⟩
    exact soundSentence_mark_safe hc (h4 s hs)

theorem foldl_mark_mine_sound {M : MineAssignment} :
    ∀ (l : List Cell) (st : MinesweeperAI), (∀ c ∈ l, M c = true) → SoundState M st →
      SoundState M (l.foldl MinesweeperAI.mark_mine st)
  | [], _, _, h => h
  | c :: l, st, hl, h =>
    foldl_mark_mine_sound l (st.mark_mine c)
      (fun x hx => hl x (List.mem_cons_of_mem c hx))
      (SoundState_mark_mine (hl c (List.mem_cons_self c l)) h)

theorem foldl_mark_safe_sound {M : MineAssignment} :
    ∀ (l : List Cell) (st : MinesweeperAI), (∀ c ∈ l, M c = false) → SoundState M st →
      SoundState M (l.foldl MinesweeperAI.mark_safe st)
  | [], _, _, h => h
  | c :: l, st, hl, h =>
    foldl_mark_safe_sound l (st.mark_safe c)
      (fun x hx => hl x (List.mem_cons_of_mem c hx))
      (SoundState_mark_safe (hl c (List.mem_cons_self c l)) h)

/-- If a sound sentence reports `known_mines`, all the reported cells really
are mines: a set of `n` cells among which exactly `n` are mines is all mines. -/
theorem known_mines_all_true {M : MineAssignment} {s : Sentence} {cs : Finset Cell}
    (h : soundSentence M s) (hk : s.known_mines = some cs) : ∀ c ∈ cs, M c = true := by
  unfold Sentence.known_mines at hk
  by_cases hcond : (s.cells.card : ℤ) = s.count
  · simp only [hcond, if_true, Option.some.injEq] at hk
    subst hk
    have hcards : (s.cells.filter (fun x => M x)).card = s.cells.card := by
      have := h.trans hcond.symm
      exact_mod_cast this
    have hfeq : s.cells.filter (fun x => M x) = s.cells :=
      Finset.eq_of_subset_of_card_le (Finset.filter_subset _ _) (le_of_eq hcards.symm)
    intro c hc
    have : c ∈ s.cells.filter (fun x => M x) := hfeq.symm ▸ hc
    exact (Finset.mem_filter.mp this).2
  · simp [hcond] at hk

/-- If a sound sentence reports `known_safes`, none of the reported cells is a
mine: a set with zero mines is all safe. -/
theorem known_safes_all_false {M : MineAssignment} {s : Sentence} {cs : Finset Cell}
    (h : soundSentence M s) (hk : s.known_safes = some cs) : ∀ c ∈ cs, M c = false := by
  unfold Sentence.known_safes at hk
  by_cases hcond : s.count = 0
  · simp only [hcond, if_true, Option.some.injEq] at hk
    subst hk
    have hcard : (s.cells.filter (fun x => M x)).card = 0 := by
      have : ((s.cells.filter (fun x => M x)).card : ℤ) = 0 := h.trans hcond
      exact_mod_cast this
    have hfeq : s.cells.filter (fun x => M x) = ∅ := Finset.card_eq_zero.mp hcard
    intro c hc
    cases hMc : M c
    · rfl
    · exact absurd (hfeq ▸ Finset.mem_filter.mpr ⟨hc, hMc⟩) (Finset.not_mem_empty c)
  · simp [hcond] at hk

theorem SoundState_extractSafes {M : MineAssignment} {st : MinesweeperAI} {s : Sentence}
    (hs : soundSentence M s) (h : SoundState M st) :
    SoundState M (MinesweeperAI.extractSafes st s) := by
  unfold MinesweeperAI.extractSafes
  split
  · rename_i cs hcs
    exact foldl_mark_safe_sound _ st
      (fun c hc => known_safes_all_false hs hcs c (mem_listCells.mp hc)) h
  · exact h

theorem SoundState_extractMines {M : MineAssignment} {st : MinesweeperAI} {idx : ℕ}
    (h : SoundState M st) : SoundState M (MinesweeperAI.extractMines st idx) := by
  unfold MinesweeperAI.extractMines
  split
  · exact h
  · rename_i s1 hget
    have hmem : s1 ∈ st.knowledge := by
      rcases List.getElem?_eq_some.mp hget with ⟨hlt, hval⟩
      exact hval ▸ st.knowledge.getElem_mem hlt
    have hs1 : soundSentence M s1 := h.2.2.2 s1 hmem
    split
    · rename_i cs hcs
      exact foldl_mark_mine_sound _ st
        (fun c hc => known_mines_all_true hs1 hcs c (mem_listCells.mp hc)) h
    · exact h

theorem SoundState_extractStep {M : MineAssignment} {st : MinesweeperAI} {idx : ℕ}
    (h : SoundState M st) : SoundState M (MinesweeperAI.extractStep st idx) := by
  unfold MinesweeperAI.extractStep
  split
  · exact h
  · rename_i s hget
    have hmem : s ∈ st.knowledge := by
      rcases List.getElem?_eq_some.mp hget with ⟨hlt, hval⟩
      exact hval ▸ st.knowledge.getElem_mem hlt
    exact SoundState_extractMines (SoundState_extractSafes (h.2.2.2 s hmem) h)

theorem SoundState_extractPass {M : MineAssignment} {st : MinesweeperAI}
    (h : SoundState M st) : SoundState M (MinesweeperAI.extractPass st) := by
  unfold MinesweeperAI.extractPass
  generalize (List.range st.knowledge.length) = l
  induction l generalizing st with
  | nil => exact h
  | cons i l ih => exact ih (SoundState_extractStep h)

/-- Subset resolution is sound: if exactly `A.count` of `A.cells` and exactly
`B.count` of `B.cells ⊆ A.cells` are mines, then exactly `A.count - B.count`
of `A.cells \ B.cells` are mines. -/
theorem newSentences_sound {M : MineAssignment} {kn : List Sentence}
    (h : ∀ s ∈ kn, soundSentence M s) :
    ∀ s ∈ MinesweeperAI.newSentences kn, soundSentence M s := by
  intro s hs
  rcases (mem_newSentences kn s).mp hs with ⟨A, hA, B, hB, hsub, rfl, _⟩
  have hAs := h A hA
  have hBs := h B hB
  unfold soundSentence at hAs hBs ⊢
  have hf : (A.cells \ B.cells).filter (fun c => M c)
      = A.cells.filter (fun c => M c) \ B.cells.filter (fun c => M c) := by
    ext p
    simp only [Finset.mem_filter, Finset.mem_sdiff]
    constructor
    · rintro ⟨⟨hpA, hpB⟩, hpM⟩
      exact ⟨⟨hpA, hpM⟩, fun hx => hpB hx.1⟩
    · rintro ⟨⟨hpA, hpM⟩, hx⟩
      exact ⟨⟨hpA, fun hpB => hx ⟨hpB, hpM⟩⟩, hpM⟩
  have hfsub : B.cells.filter (fun c => M c) ⊆ A.cells.filter (fun c => M c) :=
    Finset.filter_subset_filter _ hsub
  rw [hf, Finset.card_sdiff hfsub, Nat.cast_sub (Finset.card_le_card hfsub), hAs, hBs]

theorem SoundState_resolvePass {M : MineAssignment} {st : MinesweeperAI}
    (h : SoundState M st) : SoundState M (MinesweeperAI.resolvePass st) := by
  obtain ⟨h1, h2, h3, h4⟩ := h
  refine ⟨h1, h2, h3, ?_⟩
  intro s hs
  rcases List.mem_append.mp hs with hs | hs
  · exact h4 s hs
  · exact newSentences_sound h4 s hs

/-- Ingesting an observation that reports the true neighbour mine count of a
non-mine cell preserves soundness; in particular the new sentence is sound:
known-mine neighbours are excluded with the count decremented accordingly, and
excluded moved cells are non-mines, contributing nothing to the count. -/
theorem SoundState_ingest {M : MineAssignment} {st : MinesweeperAI} {cell : Cell}
    {count : ℤ} (h : SoundState M st) (hcell : M cell = false)
    (hcount : count = nearby_mines M st.height st.width cell) :
    SoundState M (st.ingest cell count) := by
  obtain ⟨h1, h2, h3, h4⟩ := h
  refine ⟨h1, ?_, ?_, ?_⟩
  · intro x hx
    rcases Finset.mem_insert.mp hx with rfl | hx
    · exact hcell
    · exact h2 x hx
  · intro x hx
    rcases Finset.mem_insert.mp hx with rfl | hx
    · exact hcell
    · exact h3 x hx
  · intro s hs
    simp only [MinesweeperAI.ingest, List.mem_append, List.mem_singleton] at hs
    rcases hs with hs | rfl
    · exact h4 s hs
    · unfold soundSentence
      have e1 : (blockF cell).filter
            (fun p => p ≠ cell ∧ inBounds st.height st.width p ∧ M p)
          = ((blockF cell).filter (inBounds st.height st.width)).filter
              (fun p => M p) := by
        rw [Finset.filter_filter]
        ext p
        simp only [Finset.mem_filter]
        constructor
        · rintro ⟨hb, _, hin, hM⟩
          exact ⟨hb, hin, hM⟩
        · rintro ⟨hb, hin, hM⟩
          refine ⟨hb, ?_, hin, hM⟩
          rintro rfl
          rw [hcell] at hM
          exact Bool.false_ne_true hM
      have e2 : (((blockF cell).filter (inBounds st.height st.width)).filter
              (fun p => p ∉ insert cell st.moves_made ∧ p ∉ st.mines)).filter
                (fun c => M c)
          = (((blockF cell).filter (inBounds st.height st.width)).filter
              (fun p => M p))
            \ (((blockF cell).filter (inBounds st.height st.width)).filter
              (fun p => p ∈ st.mines)) := by
        ext p
        simp only [Finset.mem_filter, Finset.mem_sdiff]
        constructor
        · rintro ⟨⟨hI, _, hmn⟩, hM⟩
          exact ⟨⟨hI, hM⟩, fun hx => hmn hx.2⟩
        · rintro ⟨⟨hI, hM⟩, hx⟩
          refine ⟨⟨hI, ?_, fun hmn => hx ⟨hI, hmn⟩⟩, hM⟩
          intro hmv
          rcases Finset.mem_insert.mp hmv with rfl | hmv
          · rw [hcell] at hM
            exact Bool.false_ne_true hM
          · rw [h3 p hmv] at hM
            exact Bool.false_ne_true hM
      have hsubm : ((blockF cell).filter (inBounds st.height st.width)).filter
            (fun p => p ∈ st.mines)
          ⊆ ((blockF cell).filter (inBounds st.height st.width)).filter
            (fun p => M p) := by
        intro p hp
        rcases Finset.mem_filter.mp hp with ⟨hI, hm⟩
        exact Finset.mem_filter.mpr ⟨hI, h1 p hm⟩
      show (((((blockF cell).filter (inBounds st.height st.width)).filter
          (fun p => p ∉ insert cell st.moves_made ∧ p ∉ st.mines)).filter
            (fun c => M c)).card : ℤ) = _
      rw [e2, Finset.card_sdiff hsubm, Nat.cast_sub (Finset.card_le_card hsubm),
        hcount]
      unfold nearby_mines
      rw [e1]

theorem SoundState_add_knowledge {M : MineAssignment} {st : MinesweeperAI}
    {cell : Cell} {count : ℤ} (h : SoundState M st) (hcell : M cell = false)
    (hcount : count = nearby_mines M st.height st.width cell) :
    SoundState M (st.add_knowledge cell count) :=
  SoundState_resolvePass (SoundState_extractPass (SoundState_ingest h hcell hcount))

theorem SoundState_init (M : MineAssignment) (H W : ℤ) :
    SoundState M (MinesweeperAI.init H W) := by
  refine ⟨?_, ?_, ?_, ?_⟩ <;> simp [MinesweeperAI.init]

theorem SoundState_playTrace {M : MineAssignment} {H W : ℤ} {obs : List (Cell × ℤ)}
    (hobs : soundTrace M H W obs) : SoundState M (playTrace H W obs) := by
  unfold playTrace
  suffices haux : ∀ (l : List (Cell × ℤ)) (st : MinesweeperAI),
      (∀ p ∈ l, M p.1 = false ∧ p.2 = nearby_mines M H W p.1) →
      SoundState M st → st.height = H → st.width = W →
      SoundState M (l.foldl (fun x p => x.add_knowledge p.1 p.2) st) by
    exact haux obs (MinesweeperAI.init H W) hobs (SoundState_init M H W) rfl rfl
  intro l
  induction l with
  | nil =>
    intro st _ h _ _
    exact h
  | cons p rest ih =>
    intro st hl h hh hw
    have hp := hl p (List.mem_cons_self p rest)
    have hframe := add_knowledge_frame st p.1 p.2
    refine ih (st.add_knowledge p.1 p.2)
      (fun q hq => hl q (List.mem_cons_of_mem p hq)) ?_ ?_ ?_
    · refine SoundState_add_knowledge h hp.1 ?_
      rw [hh, hw]
      exact hp.2
    · exact hframe.1.trans hh
    · exact hframe.2.1.trans hw

theorem SoundState_disjoint {M : MineAssignment} {st : MinesweeperAI}
    (h : SoundState M st) : st.mines ∩ st.safes = ∅ := by
  rw [Finset.eq_empty_iff_forall_not_mem]
  intro c hc
  rw [Finset.mem_inter] at hc
  have ht := h.1 c hc.1
  have hf := h.2.1 c hc.2
  rw [ht] at hf
  exact absurd hf (by simp)

instance (M : MineAssignment) (H W : ℤ) (obs : List (Cell × ℤ)) :
    Decidable (soundTrace M H W obs) :=
  inferInstanceAs
    (Decidable (∀ p ∈ obs, M p.1 = false ∧ p.2 = nearby_mines M H W p.1))

/-- C8: starting from a fresh agent and feeding it any sequence of
observations produced by a sound board collaborator (each revealed cell is
not a mine and each reported count is the board's true neighbour mine count),
the sets `mines` and `safes` of the resulting quiescent state are disjoint. -/
theorem C8_mines_safes_disjoint (H W : ℤ) (M : MineAssignment)
    (obs : List (Cell × ℤ)) (hobs : soundTrace M H W obs) :
    (playTrace H W obs).mines ∩ (playTrace H W obs).safes = ∅ :=
  SoundState_disjoint (SoundState_playTrace hobs)

/-- Witness for C8: a one-observation game on a mine-free 2×2 board. -/
theorem C8_mines_safes_disjoint_witness :
    (playTrace 2 2 [((0, 0), 0)]).mines ∩ (playTrace 2 2 [((0, 0), 0)]).safes = ∅ :=
  C8_mines_safes_disjoint 2 2 (fun _ => false) [((0, 0), 0)] (by decide)
